import Mathlib

/-!
Verification development for the C2 server/client repository.

The definitions below are a shallow embedding of the Python source:
`src/common/config.py`, `src/common/protocol.py`, `src/server/session.py`,
`src/server/session_manager.py`, `src/server/server.py`, `src/client/client.py`.
Machine-level concerns (sockets, threads) are modelled as explicit data:
a byte stream is a list of chunks, a thread's interleaving is an explicit
schedule of events, and fallible operations return `Option` / `Bool`.

JSON is modelled on the message grammar the programs exchange: a document is
a flat object with string keys and string/integer values, or a bare string
or integer.  `dumps` follows Python `json.dumps` defaults (ensure_ascii,
separators `", "` and `": "`); `loads` follows `json.loads` on that fragment.
-/

namespace C2

/-! Configuration constants from `src/common/config.py`. -/

def MAX_MESSAGE_SIZE : Nat := 100 * 1024 * 1024

def LENGTH_PREFIX_SIZE : Nat := 4

def MAX_CLIENTS : Nat := 50

def CONNECTION_RETRY_DELAY : Nat := 2

def MAX_CONNECTION_RETRIES : Nat := 3

/-! JSON values restricted to the wire-message grammar. -/

inductive JVal where
  | jstr : String → JVal
  | jint : Int → JVal
deriving DecidableEq

/-- A JSON object body: association list of string keys to values, in
insertion order, as produced by a Python dict. -/
abbrev Msg := List (String × JVal)

/-- A top-level JSON document of the modelled fragment. -/
inductive JDoc where
  | obj : Msg → JDoc
  | str : String → JDoc
  | int : Int → JDoc
deriving DecidableEq

/-! Serialization: Python `json.dumps` with default options. -/

def hexDig (n : Nat) : Char := if n < 10 then Char.ofNat (48 + n) else Char.ofNat (87 + n)

def hex4 (n : Nat) : List Char :=
  [hexDig (n / 4096 % 16), hexDig (n / 256 % 16), hexDig (n / 16 % 16), hexDig (n % 16)]

/-- Escape one character the way `json.dumps` (ensure_ascii) does: short
escapes for `"`, `\`, and the usual control characters, printable ASCII
verbatim, everything else as `\uXXXX` (a surrogate pair above U+FFFF). -/
def escChar (c : Char) : List Char :=
  if c = '"' then ['\\', '"']
  else if c = '\\' then ['\\', '\\']
  else if c = '\x08' then ['\\', 'b']
  else if c = '\x0c' then ['\\', 'f']
  else if c = '\n' then ['\\', 'n']
  else if c = '\r' then ['\\', 'r']
  else if c = '\t' then ['\\', 't']
  else if 0x20 ≤ c.toNat ∧ c.toNat ≤ 0x7e then [c]
  else if c.toNat < 0x10000 then '\\' :: 'u' :: hex4 c.toNat
  else
    ('\\' :: 'u' :: hex4 (0xd800 + (c.toNat - 0x10000) / 0x400)) ++
      ('\\' :: 'u' :: hex4 (0xdc00 + (c.toNat - 0x10000) % 0x400))

def quoteChars (cs : List Char) : List Char := '"' :: (cs.flatMap escChar ++ ['"'])

/-- Decimal digits of `n`, most significant first; the first argument is
structural fuel (`n` itself is always enough). -/
def natDigs : Nat → Nat → List Nat
  | 0, _ => []
  | fuel + 1, n => if n = 0 then [] else natDigs fuel (n / 10) ++ [n % 10]

def natRepr (n : Nat) : List Char :=
  if n = 0 then ['0'] else (natDigs n n).map (fun d => Char.ofNat (48 + d))

def intRepr (i : Int) : List Char :=
  if i < 0 then '-' :: natRepr i.natAbs else natRepr i.natAbs

def dumpVal : JVal → List Char
  | .jstr s => quoteChars s.toList
  | .jint i => intRepr i

def dumpEntry (p : String × JVal) : List Char :=
  quoteChars p.1.toList ++ ':' :: ' ' :: dumpVal p.2

def dumpEntries : Msg → List Char
  | [] => []
  | [p] => dumpEntry p
  | p :: q :: rest => dumpEntry p ++ ',' :: ' ' :: dumpEntries (q :: rest)

/-- `json.dumps` of a flat dict, default separators. -/
def dumps (m : Msg) : List Char := '\x7b' :: (dumpEntries m ++ ['\x7d'])

/-! UTF-8, as used by `str.encode('utf-8')` / `bytes.decode('utf-8')`. -/

def utf8EncodeChar (c : Char) : List Nat :=
  let v := c.toNat
  if v < 0x80 then [v]
  else if v < 0x800 then [0xc0 + v / 0x40, 0x80 + v % 0x40]
  else if v < 0x10000 then [0xe0 + v / 0x1000, 0x80 + v / 0x40 % 0x40, 0x80 + v % 0x40]
  else [0xf0 + v / 0x40000, 0x80 + v / 0x1000 % 0x40, 0x80 + v / 0x40 % 0x40, 0x80 + v % 0x40]

def utf8Encode (cs : List Char) : List Nat := cs.flatMap utf8EncodeChar

def isCont (b : Nat) : Bool := decide (0x80 ≤ b ∧ b < 0xc0)

/-- Strict UTF-8 decoder: rejects overlong forms, surrogates, and values
above U+10FFFF, like Python's `bytes.decode('utf-8')`. -/
def utf8DecodeAux : Nat → List Nat → Option (List Char)
  | _, [] => some []
  | 0, _ :: _ => none
  | fuel + 1, b :: bs =>
    if b < 0x80 then (utf8DecodeAux fuel bs).map (Char.ofNat b :: ·)
    else if b < 0xc2 then none
    else if b < 0xe0 then
      match bs with
      | b1 :: bs1 =>
        if isCont b1 then
          (utf8DecodeAux fuel bs1).map (Char.ofNat ((b - 0xc0) * 0x40 + (b1 - 0x80)) :: ·)
        else none
      | [] => none
    else if b < 0xf0 then
      match bs with
      | b1 :: b2 :: bs2 =>
        if isCont b1 && isCont b2 then
          if 0x800 ≤ (b - 0xe0) * 0x1000 + (b1 - 0x80) * 0x40 + (b2 - 0x80) ∧
              ¬(0xd800 ≤ (b - 0xe0) * 0x1000 + (b1 - 0x80) * 0x40 + (b2 - 0x80) ∧
                (b - 0xe0) * 0x1000 + (b1 - 0x80) * 0x40 + (b2 - 0x80) < 0xe000) then
            (utf8DecodeAux fuel bs2).map
              (Char.ofNat ((b - 0xe0) * 0x1000 + (b1 - 0x80) * 0x40 + (b2 - 0x80)) :: ·)
          else none
        else none
      | _ => none
    else if b < 0xf5 then
      match bs with
      | b1 :: b2 :: b3 :: bs3 =>
        if isCont b1 && isCont b2 && isCont b3 then
          if 0x10000 ≤ (b - 0xf0) * 0x40000 + (b1 - 0x80) * 0x1000 + (b2 - 0x80) * 0x40 +
              (b3 - 0x80) ∧
              (b - 0xf0) * 0x40000 + (b1 - 0x80) * 0x1000 + (b2 - 0x80) * 0x40 + (b3 - 0x80) <
                0x110000 then
            (utf8DecodeAux fuel bs3).map
              (Char.ofNat ((b - 0xf0) * 0x40000 + (b1 - 0x80) * 0x1000 + (b2 - 0x80) * 0x40 +
                (b3 - 0x80)) :: ·)
          else none
        else none
      | _ => none
    else none

def utf8Decode (bs : List Nat) : Option (List Char) := utf8DecodeAux bs.length bs

/-! Parsing: Python `json.loads` on the modelled fragment. -/

def isWs (c : Char) : Bool := c = ' ' || c = '\t' || c = '\n' || c = '\r'

def skipWs : List Char → List Char
  | [] => []
  | c :: rest => if isWs c then skipWs rest else c :: rest

def hexVal (c : Char) : Option Nat :=
  if 48 ≤ c.toNat ∧ c.toNat ≤ 57 then some (c.toNat - 48)
  else if 97 ≤ c.toNat ∧ c.toNat ≤ 102 then some (c.toNat - 87)
  else if 65 ≤ c.toNat ∧ c.toNat ≤ 70 then some (c.toNat - 55)
  else none

def readHex4 : List Char → Option (Nat × List Char)
  | a :: b :: c :: d :: rest =>
    match hexVal a, hexVal b, hexVal c, hexVal d with
    | some va, some vb, some vc, some vd => some (((va * 16 + vb) * 16 + vc) * 16 + vd, rest)
    | _, _, _, _ => none
  | _ => none

/-- Body of a JSON string literal (after the opening quote): collect
characters, handling the escape forms, until the closing quote. -/
def parseStrAux : Nat → List Char → List Char → Option (List Char × List Char)
  | 0, _, _ => none
  | fuel + 1, acc, cs =>
    match cs with
    | [] => none
    | c :: rest =>
      if c = '"' then some (acc.reverse, rest)
      else if c = '\\' then
        match rest with
        | [] => none
        | e :: rest2 =>
          if e = '"' then parseStrAux fuel ('"' :: acc) rest2
          else if e = '\\' then parseStrAux fuel ('\\' :: acc) rest2
          else if e = '/' then parseStrAux fuel ('/' :: acc) rest2
          else if e = 'b' then parseStrAux fuel ('\x08' :: acc) rest2
          else if e = 'f' then parseStrAux fuel ('\x0c' :: acc) rest2
          else if e = 'n' then parseStrAux fuel ('\n' :: acc) rest2
          else if e = 'r' then parseStrAux fuel ('\r' :: acc) rest2
          else if e = 't' then parseStrAux fuel ('\t' :: acc) rest2
          else if e = 'u' then
            match readHex4 rest2 with
            | none => none
            | some (n, rest3) =>
              if 0xd800 ≤ n ∧ n ≤ 0xdbff then
                match rest3 with
                | c1 :: c2 :: rest4 =>
                  if c1 = '\\' ∧ c2 = 'u' then
                    match readHex4 rest4 with
                    | none => none
                    | some (m, rest5) =>
                      if 0xdc00 ≤ m ∧ m ≤ 0xdfff then
                        parseStrAux fuel
                          (Char.ofNat (0x10000 + (n - 0xd800) * 0x400 + (m - 0xdc00)) :: acc) rest5
                      else none
                  else none
                | _ => none
              else if 0xdc00 ≤ n ∧ n ≤ 0xdfff then none
              else parseStrAux fuel (Char.ofNat n :: acc) rest3
          else none
      else if c.toNat < 0x20 then none
      else parseStrAux fuel (c :: acc) rest

def parseJString (cs : List Char) : Option (List Char × List Char) :=
  match cs with
  | [] => none
  | c :: rest => if c = '"' then parseStrAux (rest.length + 1) [] rest else none

def isDig (c : Char) : Bool := decide (48 ≤ c.toNat ∧ c.toNat ≤ 57)

def parseDigits : List Char → List Nat × List Char
  | [] => ([], [])
  | c :: rest =>
    if isDig c then
      let p := parseDigits rest
      ((c.toNat - 48) :: p.1, p.2)
    else ([], c :: rest)

def foldDigits (ds : List Nat) : Nat := ds.foldl (fun a d => a * 10 + d) 0

def startsWithMinus : List Char → Bool
  | c :: _ => c = '-'
  | [] => false

def floatFollows : List Char → Bool
  | c :: _ => c = '.' || c = 'e' || c = 'E'
  | [] => false

/-- A JSON integer token: optional minus sign, digits, not followed by a
fraction or exponent (which would make it a float, outside the fragment). -/
def parseIntTok (cs : List Char) : Option (Int × List Char) :=
  match parseDigits (if startsWithMinus cs then cs.tail else cs) with
  | ([], _) => none
  | (d :: ds, rest) =>
    if floatFollows rest then none
    else
      some (if startsWithMinus cs then -(foldDigits (d :: ds) : Int)
            else (foldDigits (d :: ds) : Int), rest)

def parseJVal (cs : List Char) : Option (JVal × List Char) :=
  match cs with
  | [] => none
  | c :: rest =>
    if c = '"' then
      (parseStrAux (rest.length + 1) [] rest).map (fun p => (.jstr (String.mk p.1), p.2))
    else (parseIntTok (c :: rest)).map (fun p => (.jint p.1, p.2))

def parseMembers : Nat → List Char → Option (Msg × List Char)
  | 0, _ => none
  | fuel + 1, cs =>
    match parseJString cs with
    | none => none
    | some (k, cs1) =>
      match skipWs cs1 with
      | [] => none
      | c2 :: cs2 =>
        if c2 = ':' then
          match parseJVal (skipWs cs2) with
          | none => none
          | some (v, cs3) =>
            match skipWs cs3 with
            | [] => none
            | c4 :: cs4 =>
              if c4 = ',' then
                match parseMembers fuel (skipWs cs4) with
                | some (ms, cs5) => some ((String.mk k, v) :: ms, cs5)
                | none => none
              else if c4 = '\x7d' then some ([(String.mk k, v)], cs4)
              else none
        else none

def parseObjBody (cs : List Char) : Option (Msg × List Char) :=
  match skipWs cs with
  | [] => none
  | c :: rest =>
    if c = '\x7d' then some ([], rest) else parseMembers (rest.length + 2) (c :: rest)

def parseDoc (cs : List Char) : Option (JDoc × List Char) :=
  match cs with
  | [] => none
  | c :: rest =>
    if c = '\x7b' then (parseObjBody rest).map (fun p => (.obj p.1, p.2))
    else if c = '"' then
      (parseStrAux (rest.length + 1) [] rest).map (fun p => (.str (String.mk p.1), p.2))
    else (parseIntTok (c :: rest)).map (fun p => (.int p.1, p.2))

/-- `json.loads`: a single document with surrounding whitespace only. -/
def loads (cs : List Char) : Option JDoc :=
  match parseDoc (skipWs cs) with
  | some (d, rest) => if skipWs rest = [] then some d else none
  | none => none

/-! Framed protocol from `src/common/protocol.py`. -/

/-- A TCP byte stream as the sequence of chunks that successive `recv`
calls deliver; an empty chunk models the peer closing the connection. -/
abbrev ByteStream := List (List Nat)

/-- `protocol.recv_exactly`: accumulate chunks until exactly `n` bytes have
arrived; a closed stream before that is a failure.  Returns the bytes read
and the unread remainder of the stream. -/
def recvExactly : Nat → ByteStream → Option (List Nat × ByteStream)
  | 0, s => some ([], s)
  | _ + 1, [] => none
  | n + 1, chunk :: rest =>
    if chunk.length = 0 then none
    else if chunk.length ≤ n + 1 then
      match recvExactly (n + 1 - chunk.length) rest with
      | some (data, s1) => some (chunk ++ data, s1)
      | none => none
    else some (chunk.take (n + 1), chunk.drop (n + 1) :: rest)

/-- `struct.pack('!I', n)`: 4-byte big-endian length prefix. -/
def lenBytes4 (n : Nat) : List Nat := [n / 16777216 % 256, n / 65536 % 256, n / 256 % 256, n % 256]

/-- `struct.unpack('!I', bs)`: big-endian integer of the prefix bytes. -/
def bytesToLen (bs : List Nat) : Nat := bs.foldl (fun a b => a * 256 + b) 0

/-- `protocol.send_message`: serialize, validate size, frame.  Returns the
success flag and the bytes written to the socket (none on rejection). -/
def send_message (m : Msg) : Bool × List Nat :=
  let json_bytes := utf8Encode (dumps m)
  let message_length := json_bytes.length
  if message_length > MAX_MESSAGE_SIZE then (false, [])
  else if message_length > 0xffffffff then (false, [])
  else (true, lenBytes4 message_length ++ json_bytes)

/-- `protocol.receive_message`: read the 4-byte prefix, validate the
declared length, read the body, decode UTF-8 then JSON.  Returns the parsed
document (whatever JSON value it is, exactly as the source does) together
with the unread remainder of the stream. -/
def receive_message (s : ByteStream) : Option JDoc × ByteStream :=
  match recvExactly LENGTH_PREFIX_SIZE s with
  | none => (none, s)
  | some (length_bytes, s1) =>
    let message_length := bytesToLen length_bytes
    if message_length > MAX_MESSAGE_SIZE then (none, s1)
    else
      match recvExactly message_length s1 with
      | none => (none, s1)
      | some (json_bytes, s2) =>
        match utf8Decode json_bytes with
        | none => (none, s2)
        | some chars =>
          match loads chars with
          | none => (none, s2)
          | some d => (some d, s2)

/-- Python truthiness of a message field (`if not x`): absent, the empty
string and the integer zero are falsy; every other string or integer of the
grammar is truthy. -/
def jfalsy : Option JVal → Bool
  | none => true
  | some (.jstr s) => s = ""
  | some (.jint n) => n = 0

/-! Sessions and the registry, from `src/server/session.py` and
`src/server/session_manager.py`.  Only the fields the registry logic reads
are modelled; sockets, queues, threads and timestamps are external.  The
`client_id` is kept as the JSON value the agent asserted (Python is
untyped: a registration may carry a string or an integer, and the dict is
keyed by that very object). -/

structure ClientSession where
  session_id : String
  client_id : JVal
  connected : Bool
deriving DecidableEq

/-- The `SessionManager`'s internal dict, as an association list in
insertion order.  The source maps `client_id` to `ClientSession`. -/
abbrev Registry := List (JVal × ClientSession)

/-- `SessionManager.add_session`: reject if the `client_id` key is already
present, otherwise append.  Returns the success flag and the new registry. -/
def add_session (r : Registry) (s : ClientSession) : Bool × Registry :=
  if (r.lookup s.client_id).isSome then (false, r)
  else (true, r ++ [(s.client_id, s)])

/-- `SessionManager.remove_session`: `dict.pop(client_id, None)`. -/
def remove_session (r : Registry) (client_id : JVal) : Option ClientSession × Registry :=
  match r.lookup client_id with
  | some s => (some s, r.filter (fun p => p.1 ≠ client_id))
  | none => (none, r)

/-- `SessionManager.get_session`. -/
def get_session (r : Registry) (client_id : JVal) : Option ClientSession := r.lookup client_id

/-- `SessionManager.get_session_count`. -/
def get_session_count (r : Registry) : Nat := r.length

/-- `SessionManager.get_all_client_ids`. -/
def get_all_client_ids (r : Registry) : List JVal := r.map Prod.fst

/-- `SessionManager.list_sessions`: display snapshot of each session's
`client_id`, `session_id` and `connected` flag. -/
def list_sessions (r : Registry) : List (JVal × String × Bool) :=
  r.map (fun p => (p.2.client_id, p.2.session_id, p.2.connected))

/-! The session handler, from `src/server/server.py`. -/

/-- `server.handle_registration`: the received document must be a mapping
with `type = "registration"` and a truthy `client_id` (the source only
checks `if not client_id`, so an absent, empty-string or zero value fails
and any other string or integer registers as-is); `None` (receive failure /
closed stream) fails.  A `.get` on a non-mapping raises and is caught by
the surrounding `except`, which also returns `None`. -/
def handle_registration (regDoc : Option JDoc) : Option JVal :=
  match regDoc with
  | some (.obj m) =>
    if m.lookup "type" = some (.jstr "registration") then
      if jfalsy (m.lookup "client_id") then none
      else m.lookup "client_id"
    else none
  | _ => none

/-- One iteration's worth of input to the handler's command loop: either the
operator queue times out empty, or it yields a command, for which the model
also supplies the transport outcomes (did the command send succeed, and what
message, if any, came back). -/
inductive LoopStep where
  | timeout : LoopStep
  | cmd : String → Bool → Option JDoc → LoopStep

/-- Observable transport events of one handler's command loop. -/
inductive LEvent where
  | sent : String → LEvent
  | received : JDoc → LEvent
  | sendFailed : LEvent
  | recvFailed : LEvent
deriving DecidableEq

/-- The `ACTIVE` loop of `server.client_handler` (lines 331-384): pop a
command, send it, block for the paired reply; break on send or receive
failure (or on the exception a non-mapping reply raises); a well-formed
reply of an unexpected type is logged and the loop continues. -/
def handlerLoop : List LoopStep → List LEvent
  | [] => []
  | .timeout :: rest => handlerLoop rest
  | .cmd c sendOk resp :: rest =>
    if sendOk then
      .sent c ::
        match resp with
        | none => [.recvFailed]
        | some d =>
          .received d ::
            match d with
            | .obj _ => handlerLoop rest
            | _ => []
    else [.sendFailed]

/-- Result of running one `client_handler` to completion. -/
structure HandlerRun where
  finalReg : Registry
  regStates : List Registry
  events : List LEvent
  cleanupRan : Nat
  closedSocket : Bool
deriving DecidableEq

/-- `server.client_handler`, full lifecycle: registration, session
creation, registry insert, command loop, and the `finally` cleanup.  The
`regStates` field records the registry after each mutation (the snapshots
other threads could observe).  Note the `finally` block removes
`session.client_id` whenever the session object was created, even when
`add_session` had rejected the insert. -/
def client_handler (r0 : Registry) (session_id : String) (regDoc : Option JDoc)
    (steps : List LoopStep) : HandlerRun :=
  match handle_registration regDoc with
  | none => ⟨r0, [], [], 1, true⟩
  | some cid =>
    let s : ClientSession := ⟨session_id, cid, true⟩
    let (ok, r1) := add_session r0 s
    if ok then
      let evs := handlerLoop steps
      let r2 := (remove_session r1 cid).2
      ⟨r2, [r1, r2], evs, 1, true⟩
    else
      let r2 := (remove_session r1 cid).2
      ⟨r2, [r1, r2], [], 1, true⟩

/-! The accept loop, from `server.connection_listener` (lines 95-134). -/

inductive LAction where
  | atCapacitySleep : LAction
  | acceptTimeout : LAction
  | tlsFailClose : LAction
  | spawned : LAction
deriving DecidableEq

/-- One iteration of the listener loop: check the live-session count
against `MAX_CLIENTS` before calling `accept`; at capacity, sleep briefly
and loop without accepting.  `inbound none` models an accept timeout,
`inbound (some tlsOk)` an accepted connection whose optional TLS handshake
succeeded or failed. -/
def listener_iteration (count : Nat) (inbound : Option Bool) : LAction :=
  if count ≥ MAX_CLIENTS then .atCapacitySleep
  else
    match inbound with
    | none => .acceptTimeout
    | some tlsOk => if tlsOk then .spawned else .tlsFailClose

/-- The listener over a schedule of iterations (registry count seen at each
iteration, and what the socket offers). -/
def listener_run (sched : List (Nat × Option Bool)) : List LAction :=
  sched.map (fun it => listener_iteration it.1 it.2)

/-! The client's connection establishment, `client.connect_to_server`. -/

inductive ConnOutcome where
  | ok : ConnOutcome
  | refused : ConnOutcome
  | sslErr : ConnOutcome
  | gaiErr : ConnOutcome
  | osErr : ConnOutcome
  | otherExc : ConnOutcome
deriving DecidableEq

/-- The retry loop of `connect_to_server`, with the remaining retry budget
made structural: attempt `i`; `ConnectionRefusedError` and `OSError` are
transient (sleep `delay`, double it, retry while retries remain);
`ssl.SSLError`, `socket.gaierror` and unexpected exceptions return `None`
immediately.  Returns the index of the successful attempt (or `none`) and
the list of sleep delays performed. -/
def connectGo (oracle : Nat → ConnOutcome) : Nat → Nat → Nat → Option Nat × List Nat
  | i, 0, _ =>
    match oracle i with
    | .ok => (some i, [])
    | .sslErr => (none, [])
    | .gaiErr => (none, [])
    | .otherExc => (none, [])
    | .refused => (none, [])
    | .osErr => (none, [])
  | i, b + 1, delay =>
    match oracle i with
    | .ok => (some i, [])
    | .sslErr => (none, [])
    | .gaiErr => (none, [])
    | .otherExc => (none, [])
    | .refused =>
      let res := connectGo oracle (i + 1) b (delay * 2)
      (res.1, delay :: res.2)
    | .osErr =>
      let res := connectGo oracle (i + 1) b (delay * 2)
      (res.1, delay :: res.2)

/-- `client.connect_to_server`: initial attempt plus up to
`MAX_CONNECTION_RETRIES` retries, starting from `CONNECTION_RETRY_DELAY`. -/
def connect_to_server (oracle : Nat → ConnOutcome) : Option Nat × List Nat :=
  connectGo oracle 0 MAX_CONNECTION_RETRIES CONNECTION_RETRY_DELAY

/-! The client's command loop, `client.main_loop` (lines 322-359). -/

/-- Observable events of the client's command loop. -/
inductive CEvent where
  | warnedType : CEvent
  | warnedEmpty : CEvent
  | executed : JVal → CEvent
  | sentResult : JVal → CEvent
  | exitRecvFail : CEvent
  | exitSendFail : CEvent
  | exitExc : CEvent
deriving DecidableEq

/-- `client.main_loop` over a schedule of receptions: each element is the
message `receive_message` produced (or `none` for a failure) paired with
whether the eventual `send_result` would succeed.  A receive failure breaks
the loop; a non-`command` type or a falsy `command` field is skipped with a
warning; a non-mapping message raises on `.get` and the outer `except`
leaves the loop. -/
def main_loop : List (Option JDoc × Bool) → List CEvent
  | [] => []
  | (none, _) :: _ => [.exitRecvFail]
  | (some d, sendOk) :: rest =>
    match d with
    | .obj m =>
      if m.lookup "type" = some (.jstr "command") then
        let cmd := m.lookup "command"
        if jfalsy cmd then .warnedEmpty :: main_loop rest
        else
          match cmd with
          | some v =>
            .executed v ::
              (if sendOk then .sentResult v :: main_loop rest else [.exitSendFail])
          | none => .warnedEmpty :: main_loop rest
      else .warnedType :: main_loop rest
    | _ => [.exitExc]

/-! Character helpers. -/

theorem char_valid_cases (c : Char) :
    c.toNat < 0xd800 ∨ (0xe000 ≤ c.toNat ∧ c.toNat < 0x110000) := c.valid

theorem toNat_ofNat_valid {n : Nat} (h : n.isValidChar) : (Char.ofNat n).toNat = n := by
  unfold Char.ofNat
  rw [dif_pos h]
  rfl

theorem isValidChar_of_lt {n : Nat} (h : n < 0xd800) : n.isValidChar := Or.inl h

theorem isValidChar_of_ge {n : Nat} (h1 : 0xe000 ≤ n) (h2 : n < 0x110000) : n.isValidChar :=
  Or.inr ⟨h1, h2⟩

/-! The byte-stream reader `recv_exactly`. -/

theorem recvExactly_spec :
    ∀ (s : ByteStream) (n : Nat), (∀ c ∈ s, c ≠ []) → n ≤ s.flatten.length →
      ∃ s1, recvExactly n s = some (s.flatten.take n, s1) ∧
        s1.flatten = s.flatten.drop n ∧ (∀ c ∈ s1, c ≠ []) := by
  intro s
  induction s with
  | nil =>
    intro n _ hn
    simp only [List.flatten_nil, List.length_nil, Nat.le_zero] at hn
    subst hn
    exact ⟨[], by simp [recvExactly], by simp, by simp⟩
  | cons chunk rest ih =>
    intro n hne hn
    rcases n with _ | m
    · exact ⟨chunk :: rest, by simp [recvExactly], by simp, hne⟩
    · have hchunk : chunk ≠ [] := hne chunk (by simp)
      have hlen0 : ¬chunk.length = 0 := by simpa using hchunk
      simp only [List.flatten_cons, List.length_append] at hn
      by_cases hle : chunk.length ≤ m + 1
      · have hrest : ∀ c ∈ rest, c ≠ [] := fun c hc => hne c (by simp [hc])
        have hn2 : m + 1 - chunk.length ≤ rest.flatten.length := by omega
        obtain ⟨s1, h1, h2, h3⟩ := ih (m + 1 - chunk.length) hrest hn2
        refine ⟨s1, ?_, ?_, h3⟩
        · simp only [recvExactly, if_neg hlen0, if_pos hle, h1]
          rw [List.flatten_cons, List.take_append_eq_append_take,
            List.take_of_length_le hle]
        · rw [h2, List.flatten_cons, List.drop_append_eq_append_drop,
            List.drop_eq_nil_of_le hle, List.nil_append]
      · refine ⟨chunk.drop (m + 1) :: rest, ?_, ?_, ?_⟩
        · simp only [recvExactly, if_neg hlen0, if_neg hle]
          rw [List.flatten_cons, List.take_append_of_le_length (by omega)]
        · simp only [List.flatten_cons]
          rw [List.drop_append_of_le_length (by omega)]
        · intro c hc
          rcases List.mem_cons.mp hc with rfl | hc2
          · intro hd
            have := congrArg List.length hd
            simp at this
            omega
          · exact hne c (by simp [hc2])

/-! The 4-byte big-endian length prefix. -/

theorem bytesToLen_lenBytes4 (n : Nat) (h : n < 4294967296) :
    bytesToLen (lenBytes4 n) = n := by
  simp only [bytesToLen, lenBytes4, List.foldl]
  omega

theorem length_lenBytes4 (n : Nat) : (lenBytes4 n).length = 4 := rfl

/-! UTF-8 round trip. -/

theorem utf8DecodeAux_encodeChar (c : Char) (f : Nat) (bs : List Nat) :
    utf8DecodeAux (f + 1) (utf8EncodeChar c ++ bs) = (utf8DecodeAux f bs).map (c :: ·) := by
  have hv := char_valid_cases c
  have hofn : Char.ofNat c.toNat = c := Char.ofNat_toNat c
  by_cases h1 : c.toNat < 0x80
  · simp only [utf8EncodeChar, if_pos h1, List.cons_append, List.nil_append]
    simp only [utf8DecodeAux, if_pos h1, hofn]
  · by_cases h2 : c.toNat < 0x800
    · simp only [utf8EncodeChar, if_neg h1, if_pos h2, List.cons_append, List.nil_append]
      have hcont : isCont (0x80 + c.toNat % 0x40) = true := by
        simp only [isCont, decide_eq_true_eq]
        omega
      simp only [utf8DecodeAux, if_neg (by omega : ¬0xc0 + c.toNat / 0x40 < 0x80),
        if_neg (by omega : ¬0xc0 + c.toNat / 0x40 < 0xc2),
        if_pos (by omega : 0xc0 + c.toNat / 0x40 < 0xe0), hcont, if_true]
      have hval : (0xc0 + c.toNat / 0x40 - 0xc0) * 0x40 + (0x80 + c.toNat % 0x40 - 0x80) =
          c.toNat := by omega
      rw [hval, hofn]
    · by_cases h3 : c.toNat < 0x10000
      · have hsur : c.toNat < 0xd800 ∨ 0xe000 ≤ c.toNat := by
          rcases hv with h | h
          · exact Or.inl h
          · exact Or.inr h.1
        simp only [utf8EncodeChar, if_neg h1, if_neg h2, if_pos h3, List.cons_append,
          List.nil_append]
        have hcont1 : isCont (0x80 + c.toNat / 0x40 % 0x40) = true := by
          simp only [isCont, decide_eq_true_eq]
          omega
        have hcont2 : isCont (0x80 + c.toNat % 0x40) = true := by
          simp only [isCont, decide_eq_true_eq]
          omega
        simp only [utf8DecodeAux, if_neg (by omega : ¬0xe0 + c.toNat / 0x1000 < 0x80),
          if_neg (by omega : ¬0xe0 + c.toNat / 0x1000 < 0xc2),
          if_neg (by omega : ¬0xe0 + c.toNat / 0x1000 < 0xe0),
          if_pos (by omega : 0xe0 + c.toNat / 0x1000 < 0xf0),
          hcont1, hcont2, Bool.and_self, if_true]
        have hval : (0xe0 + c.toNat / 0x1000 - 0xe0) * 0x1000 +
            (0x80 + c.toNat / 0x40 % 0x40 - 0x80) * 0x40 + (0x80 + c.toNat % 0x40 - 0x80) =
            c.toNat := by omega
        rw [if_pos (by rw [hval]; omega), hval, hofn]
      · have h4 : c.toNat < 0x110000 := by
          rcases hv with h | h
          · omega
          · exact h.2
        simp only [utf8EncodeChar, if_neg h1, if_neg h2, if_neg h3, List.cons_append,
          List.nil_append]
        have hcont1 : isCont (0x80 + c.toNat / 0x1000 % 0x40) = true := by
          simp only [isCont, decide_eq_true_eq]
          omega
        have hcont2 : isCont (0x80 + c.toNat / 0x40 % 0x40) = true := by
          simp only [isCont, decide_eq_true_eq]
          omega
        have hcont3 : isCont (0x80 + c.toNat % 0x40) = true := by
          simp only [isCont, decide_eq_true_eq]
          omega
        simp only [utf8DecodeAux, if_neg (by omega : ¬0xf0 + c.toNat / 0x40000 < 0x80),
          if_neg (by omega : ¬0xf0 + c.toNat / 0x40000 < 0xc2),
          if_neg (by omega : ¬0xf0 + c.toNat / 0x40000 < 0xe0),
          if_neg (by omega : ¬0xf0 + c.toNat / 0x40000 < 0xf0),
          if_pos (by omega : 0xf0 + c.toNat / 0x40000 < 0xf5),
          hcont1, hcont2, hcont3, Bool.and_self, if_true]
        have hval : (0xf0 + c.toNat / 0x40000 - 0xf0) * 0x40000 +
            (0x80 + c.toNat / 0x1000 % 0x40 - 0x80) * 0x1000 +
            (0x80 + c.toNat / 0x40 % 0x40 - 0x80) * 0x40 + (0x80 + c.toNat % 0x40 - 0x80) =
            c.toNat := by omega
        rw [if_pos (by rw [hval]; omega), hval, hofn]

theorem utf8DecodeAux_encode (l : List Char) :
    ∀ f, l.length ≤ f → utf8DecodeAux f (utf8Encode l) = some l := by
  induction l with
  | nil =>
    intro f _
    cases f <;> rfl
  | cons c t ih =>
    intro f hf
    rcases f with _ | f
    · simp at hf
    · have : utf8Encode (c :: t) = utf8EncodeChar c ++ utf8Encode t := by
        simp [utf8Encode]
      rw [this, utf8DecodeAux_encodeChar, ih f (by simpa using hf)]
      rfl

theorem length_le_utf8Encode (l : List Char) : l.length ≤ (utf8Encode l).length := by
  induction l with
  | nil => simp [utf8Encode]
  | cons c t ih =>
    have : utf8Encode (c :: t) = utf8EncodeChar c ++ utf8Encode t := by
      simp [utf8Encode]
    rw [this, List.length_append]
    have hpos : 1 ≤ (utf8EncodeChar c).length := by
      unfold utf8EncodeChar
      by_cases h1 : c.toNat < 0x80
      · simp [h1]
      · by_cases h2 : c.toNat < 0x800
        · simp [h1, h2]
        · by_cases h3 : c.toNat < 0x10000
          · simp [h1, h2, h3]
          · simp [h1, h2, h3]
    simp only [List.length_cons]
    omega

theorem utf8Decode_encode (l : List Char) : utf8Decode (utf8Encode l) = some l :=
  utf8DecodeAux_encode l (utf8Encode l).length (length_le_utf8Encode l)

/-! JSON string escaping round trip. -/

theorem hexVal_hexDig : ∀ d < 16, hexVal (hexDig d) = some d := by decide

theorem readHex4_hex4 (n : Nat) (h : n < 0x10000) (rest : List Char) :
    readHex4 (hex4 n ++ rest) = some (n, rest) := by
  have h1 := hexVal_hexDig (n / 4096 % 16) (Nat.mod_lt _ (by norm_num))
  have h2 := hexVal_hexDig (n / 256 % 16) (Nat.mod_lt _ (by norm_num))
  have h3 := hexVal_hexDig (n / 16 % 16) (Nat.mod_lt _ (by norm_num))
  have h4 := hexVal_hexDig (n % 16) (Nat.mod_lt _ (by norm_num))
  simp only [hex4, List.cons_append, List.nil_append, readHex4, h1, h2, h3, h4]
  congr 1
  congr 1
  omega

theorem parseStrAux_u (f : Nat) (acc rest : List Char) :
    parseStrAux (f + 1) acc ('\\' :: 'u' :: rest) =
      match readHex4 rest with
      | none => none
      | some (n, rest3) =>
        if 0xd800 ≤ n ∧ n ≤ 0xdbff then
          match rest3 with
          | c1 :: c2 :: rest4 =>
            if c1 = '\\' ∧ c2 = 'u' then
              match readHex4 rest4 with
              | none => none
              | some (m, rest5) =>
                if 0xdc00 ≤ m ∧ m ≤ 0xdfff then
                  parseStrAux f
                    (Char.ofNat (0x10000 + (n - 0xd800) * 0x400 + (m - 0xdc00)) :: acc) rest5
                else none
            else none
          | _ => none
        else if 0xdc00 ≤ n ∧ n ≤ 0xdfff then none
        else parseStrAux f (Char.ofNat n :: acc) rest3 := by
  rfl

theorem parseStrAux_esc (c : Char) (f : Nat) (acc rest : List Char) :
    parseStrAux (f + 1) acc (escChar c ++ rest) = parseStrAux f (c :: acc) rest := by
  have hofn : Char.ofNat c.toNat = c := Char.ofNat_toNat c
  have hv := char_valid_cases c
  by_cases h1 : c = '"'
  · subst h1
    simp [escChar, parseStrAux]
  by_cases h2 : c = '\\'
  · subst h2
    simp [escChar, parseStrAux]
  by_cases h3 : c = '\x08'
  · subst h3
    simp [escChar, parseStrAux]
  by_cases h4 : c = '\x0c'
  · subst h4
    simp [escChar, parseStrAux]
  by_cases h5 : c = '\n'
  · subst h5
    simp [escChar, parseStrAux]
  by_cases h6 : c = '\r'
  · subst h6
    simp [escChar, parseStrAux]
  by_cases h7 : c = '\t'
  · subst h7
    simp [escChar, parseStrAux]
  by_cases h8 : 0x20 ≤ c.toNat ∧ c.toNat ≤ 0x7e
  · rw [escChar, if_neg h1, if_neg h2, if_neg h3, if_neg h4, if_neg h5, if_neg h6, if_neg h7,
      if_pos h8]
    simp only [List.cons_append, List.nil_append, parseStrAux, if_neg h1, if_neg h2,
      if_neg (by omega : ¬c.toNat < 0x20)]
  by_cases h9 : c.toNat < 0x10000
  · rw [escChar, if_neg h1, if_neg h2, if_neg h3, if_neg h4, if_neg h5, if_neg h6, if_neg h7,
      if_neg h8, if_pos h9]
    simp only [List.cons_append]
    rw [parseStrAux_u, readHex4_hex4 c.toNat h9]
    simp only []
    rw [if_neg (by omega : ¬(0xd800 ≤ c.toNat ∧ c.toNat ≤ 0xdbff)),
      if_neg (by omega : ¬(0xdc00 ≤ c.toNat ∧ c.toNat ≤ 0xdfff)), hofn]
  · have h10 : c.toNat < 0x110000 := by
      rcases hv with h | h
      · omega
      · exact h.2
    rw [escChar, if_neg h1, if_neg h2, if_neg h3, if_neg h4, if_neg h5, if_neg h6, if_neg h7,
      if_neg h8, if_neg h9]
    simp only [List.cons_append, List.append_assoc]
    rw [parseStrAux_u, readHex4_hex4 (0xd800 + (c.toNat - 0x10000) / 0x400) (by omega)]
    simp only []
    rw [if_pos (by omega : 0xd800 ≤ 0xd800 + (c.toNat - 0x10000) / 0x400 ∧
        0xd800 + (c.toNat - 0x10000) / 0x400 ≤ 0xdbff)]
    rw [if_pos (⟨trivial, trivial⟩ : True ∧ True)]
    rw [readHex4_hex4 (0xdc00 + (c.toNat - 0x10000) % 0x400) (by omega)]
    simp only []
    rw [if_pos (by omega : 0xdc00 ≤ 0xdc00 + (c.toNat - 0x10000) % 0x400 ∧
        0xdc00 + (c.toNat - 0x10000) % 0x400 ≤ 0xdfff)]
    have hval : 0x10000 + (0xd800 + (c.toNat - 0x10000) / 0x400 - 0xd800) * 0x400 +
        (0xdc00 + (c.toNat - 0x10000) % 0x400 - 0xdc00) = c.toNat := by omega
    rw [hval, hofn]

theorem parseStrAux_escList (l : List Char) :
    ∀ (f : Nat) (acc tail : List Char), l.length + 1 ≤ f →
      parseStrAux f acc (l.flatMap escChar ++ ('"' :: tail)) = some (acc.reverse ++ l, tail) := by
  induction l with
  | nil =>
    intro f acc tail hf
    rcases f with _ | f
    · omega
    · simp [parseStrAux]
  | cons c t ih =>
    intro f acc tail hf
    rcases f with _ | f
    · omega
    · rw [List.flatMap_cons, List.append_assoc, parseStrAux_esc,
        ih f (c :: acc) tail (by simp at hf ⊢; omega)]
      simp

theorem length_le_escList (l : List Char) : l.length ≤ (l.flatMap escChar).length := by
  induction l with
  | nil => simp
  | cons c t ih =>
    rw [List.flatMap_cons, List.length_append]
    have : 1 ≤ (escChar c).length := by
      unfold escChar
      split_ifs <;> simp
    simp only [List.length_cons]
    omega

theorem parseStrAux_quoted (l tail : List Char) :
    parseStrAux ((l.flatMap escChar ++ ('"' :: tail)).length + 1) []
      (l.flatMap escChar ++ ('"' :: tail)) = some (l, tail) := by
  have h := length_le_escList l
  rw [parseStrAux_escList l _ [] tail
    (by rw [List.length_append]; simp only [List.length_cons]; omega)]
  simp

theorem parseJString_quote (l tail : List Char) :
    parseJString (quoteChars l ++ tail) = some (l, tail) := by
  have hassoc : quoteChars l ++ tail = '"' :: (l.flatMap escChar ++ ('"' :: tail)) := by
    simp [quoteChars]
  rw [hassoc]
  simp only [parseJString, if_pos rfl]
  exact parseStrAux_quoted l tail

/-! Integer token round trip. -/

/-- The characters (if any) following a number token do not extend it. -/
def stopsNum : List Char → Bool
  | [] => true
  | c :: _ => !(isDig c)

theorem natDigs_lt10 : ∀ f n d, d ∈ natDigs f n → d < 10 := by
  intro f
  induction f with
  | zero =>
    intro n d hd
    simp [natDigs] at hd
  | succ f ih =>
    intro n d hd
    by_cases h : n = 0
    · simp [natDigs, h] at hd
    · rw [natDigs, if_neg h] at hd
      rcases List.mem_append.mp hd with h1 | h1
      · exact ih _ _ h1
      · simp at h1
        subst h1
        exact Nat.mod_lt _ (by norm_num)

theorem foldl_natDigs : ∀ f n, n ≤ f → ∀ a,
    (natDigs f n).foldl (fun x d => x * 10 + d) a = a * 10 ^ (natDigs f n).length + n := by
  intro f
  induction f with
  | zero =>
    intro n hn a
    interval_cases n
    simp [natDigs]
  | succ f ih =>
    intro n hn a
    by_cases h : n = 0
    · simp [natDigs, h]
    · rw [natDigs, if_neg h, List.foldl_append, List.length_append]
      simp only [List.foldl_cons, List.foldl_nil, List.length_cons, List.length_nil]
      rw [ih (n / 10) (by omega) a]
      rw [pow_succ]
      have hmod : n / 10 * 10 + n % 10 = n := by omega
      calc (a * 10 ^ (natDigs f (n / 10)).length + n / 10) * 10 + n % 10 =
          a * (10 ^ (natDigs f (n / 10)).length * 10) + (n / 10 * 10 + n % 10) := by ring
        _ = a * (10 ^ (natDigs f (n / 10)).length * 10) + n := by rw [hmod]

theorem natDigs_ne_nil (f n : Nat) (h0 : n ≠ 0) (hf : n ≤ f) : natDigs f n ≠ [] := by
  rcases f with _ | f
  · omega
  · rw [natDigs, if_neg h0]
    simp

theorem toNat_digCh (d : Nat) (h : d < 10) : (Char.ofNat (48 + d)).toNat = 48 + d :=
  toNat_ofNat_valid (isValidChar_of_lt (by omega))

theorem isDig_digCh (d : Nat) (h : d < 10) : isDig (Char.ofNat (48 + d)) = true := by
  simp only [isDig, toNat_digCh d h, decide_eq_true_eq]
  omega

theorem natRepr_digits (n : Nat) : ∀ c ∈ natRepr n, isDig c = true := by
  intro c hc
  unfold natRepr at hc
  by_cases h : n = 0
  · rw [if_pos h] at hc
    simp at hc
    subst hc
    decide
  · rw [if_neg h] at hc
    obtain ⟨d, hd, rfl⟩ := List.mem_map.mp hc
    exact isDig_digCh d (natDigs_lt10 n n d hd)

theorem natRepr_ne_nil (n : Nat) : natRepr n ≠ [] := by
  unfold natRepr
  by_cases h : n = 0
  · simp [h]
  · rw [if_neg h]
    simp only [ne_eq, List.map_eq_nil_iff]
    exact natDigs_ne_nil n n h (Nat.le_refl n)

theorem parseDigits_append (l : List Char) :
    ∀ rest, (∀ c ∈ l, isDig c = true) → stopsNum rest = true →
      parseDigits (l ++ rest) = (l.map (fun c => c.toNat - 48), rest) := by
  induction l with
  | nil =>
    intro rest _ hr
    rcases rest with _ | ⟨c, t⟩
    · rfl
    · have hc : isDig c = false := by
        simpa [stopsNum] using hr
      simp [parseDigits, hc]
  | cons c t ih =>
    intro rest hl hr
    have hc : isDig c = true := hl c (by simp)
    rw [List.cons_append]
    simp only [parseDigits, hc, if_true]
    rw [ih rest (fun x hx => hl x (by simp [hx])) hr]
    simp

theorem foldDigits_natRepr (n : Nat) :
    foldDigits ((natRepr n).map (fun c => c.toNat - 48)) = n := by
  unfold natRepr
  by_cases h : n = 0
  · simp [h, foldDigits]
  · rw [if_neg h, List.map_map]
    have hcongr : ∀ d ∈ natDigs n n,
        ((fun c => c.toNat - 48) ∘ fun d => Char.ofNat (48 + d)) d = id d := by
      intro d hd
      simp [toNat_digCh d (natDigs_lt10 n n d hd)]
    rw [List.map_congr_left hcongr, List.map_id]
    unfold foldDigits
    rw [foldl_natDigs n n (Nat.le_refl n) 0]
    simp

theorem startsWithMinus_natRepr (n : Nat) (rest : List Char) :
    startsWithMinus (natRepr n ++ rest) = false := by
  obtain ⟨c, t, hct⟩ : ∃ c t, natRepr n = c :: t := by
    rcases hnr : natRepr n with _ | ⟨c, t⟩
    · exact absurd hnr (natRepr_ne_nil n)
    · exact ⟨c, t, rfl⟩
  have hd : isDig c = true := natRepr_digits n c (by rw [hct]; simp)
  rw [hct, List.cons_append]
  simp only [startsWithMinus, decide_eq_false_iff_not]
  intro hcm
  rw [hcm] at hd
  exact absurd hd (by decide)

theorem parseIntTok_intRepr (i : Int) (rest : List Char)
    (hr : stopsNum rest = true) (hf : floatFollows rest = false) :
    parseIntTok (intRepr i ++ rest) = some (i, rest) := by
  obtain ⟨c, t, hct⟩ : ∃ c t, natRepr i.natAbs = c :: t := by
    rcases hnr : natRepr i.natAbs with _ | ⟨c, t⟩
    · exact absurd hnr (natRepr_ne_nil _)
    · exact ⟨c, t, rfl⟩
  have hdigs := parseDigits_append (natRepr i.natAbs) rest (natRepr_digits i.natAbs) hr
  by_cases hi : i < 0
  · rw [intRepr, if_pos hi, List.cons_append]
    have hsw : startsWithMinus ('-' :: (natRepr i.natAbs ++ rest)) = true := by
      simp [startsWithMinus]
    simp only [parseIntTok, hsw, if_true, List.tail_cons, hdigs]
    rw [hct] at hdigs ⊢
    simp only [List.map_cons, hdigs]
    rw [if_neg (by simp [hf])]
    have hfold : foldDigits ((c :: t).map (fun c => c.toNat - 48)) = i.natAbs := by
      rw [← hct]
      exact foldDigits_natRepr i.natAbs
    simp only [List.map_cons] at hfold
    rw [hfold]
    have : -(i.natAbs : Int) = i := by omega
    rw [this]
  · rw [intRepr, if_neg hi]
    have hsw : startsWithMinus (natRepr i.natAbs ++ rest) = false :=
      startsWithMinus_natRepr i.natAbs rest
    simp only [parseIntTok, hsw, if_false, Bool.false_eq_true, ite_false, hdigs]
    rw [hct] at hdigs ⊢
    simp only [List.map_cons, hdigs]
    rw [if_neg (by simp [hf])]
    have hfold : foldDigits ((c :: t).map (fun c => c.toNat - 48)) = i.natAbs := by
      rw [← hct]
      exact foldDigits_natRepr i.natAbs
    simp only [List.map_cons] at hfold
    rw [hfold]
    have : (i.natAbs : Int) = i := by omega
    rw [this]

/-! Whitespace and value-level parsing lemmas. -/

theorem skipWs_cons_not (c : Char) (t : List Char) (h : isWs c = false) :
    skipWs (c :: t) = c :: t := by
  simp [skipWs, h]

theorem isWs_of_isDig (c : Char) (h : isDig c = true) : isWs c = false := by
  by_contra hws
  simp only [Bool.not_eq_false] at hws
  simp only [isWs, Bool.or_eq_true, decide_eq_true_eq] at hws
  rcases hws with ((h1 | h2) | h3) | h4 <;> subst_vars <;> exact absurd h (by decide)

theorem mk_toList (s : String) : String.mk s.toList = s := rfl

theorem intRepr_head (i : Int) : ∃ c t, intRepr i = c :: t ∧ isWs c = false ∧ c ≠ '"' := by
  unfold intRepr
  by_cases hi : i < 0
  · exact ⟨'-', natRepr i.natAbs, by rw [if_pos hi], by decide, by decide⟩
  · obtain ⟨c, t, hct⟩ : ∃ c t, natRepr i.natAbs = c :: t := by
      rcases hnr : natRepr i.natAbs with _ | ⟨c, t⟩
      · exact absurd hnr (natRepr_ne_nil _)
      · exact ⟨c, t, rfl⟩
    have hd : isDig c = true := natRepr_digits _ c (by rw [hct]; simp)
    refine ⟨c, t, by rw [if_neg hi, hct], isWs_of_isDig c hd, fun hq => ?_⟩
    rw [hq] at hd
    exact absurd hd (by decide)

theorem skipWs_dumpVal (v : JVal) (X : List Char) :
    skipWs (dumpVal v ++ X) = dumpVal v ++ X := by
  cases v with
  | jstr s =>
    simp only [dumpVal, quoteChars, List.cons_append]
    exact skipWs_cons_not '"' _ (by decide)
  | jint i =>
    obtain ⟨c, t, hct, hws, _⟩ := intRepr_head i
    simp only [dumpVal]
    rw [hct, List.cons_append]
    exact skipWs_cons_not c _ hws

theorem parseJVal_dumpVal (v : JVal) (rest : List Char)
    (hr : stopsNum rest = true) (hf : floatFollows rest = false) :
    parseJVal (dumpVal v ++ rest) = some (v, rest) := by
  cases v with
  | jstr s =>
    have hassoc : dumpVal (.jstr s) ++ rest =
        '"' :: (s.toList.flatMap escChar ++ ('"' :: rest)) := by
      simp [dumpVal, quoteChars]
    rw [hassoc]
    simp only [parseJVal, if_pos rfl]
    rw [parseStrAux_quoted s.toList rest]
    simp [mk_toList]
  | jint i =>
    obtain ⟨c, t, hct, _, hcq⟩ := intRepr_head i
    have hint := parseIntTok_intRepr i rest hr hf
    simp only [dumpVal] at hint ⊢
    rw [hct, List.cons_append] at hint ⊢
    simp only [parseJVal, if_neg hcq, hint]
    rfl

theorem skipWs_space (t : List Char) : skipWs (' ' :: t) = skipWs t := by
  simp [skipWs, isWs]

theorem dumpEntries_cons_head (p : String × JVal) (t : Msg) :
    ∃ X, dumpEntries (p :: t) = '"' :: X := by
  rcases t with _ | ⟨q, t2⟩ <;>
  · simp only [dumpEntries, dumpEntry, quoteChars, List.cons_append, List.append_assoc]
    exact ⟨_, rfl⟩

theorem parseMembers_dumpEntries (m : Msg) :
    ∀ fuel tail, m ≠ [] → m.length ≤ fuel →
      parseMembers fuel (dumpEntries m ++ ('\x7d' :: tail)) = some (m, tail) := by
  induction m with
  | nil =>
    intro fuel tail hne _
    exact absurd rfl hne
  | cons p t ih =>
    intro fuel tail _ hlen
    rcases fuel with _ | f
    · simp at hlen
    obtain ⟨k, v⟩ := p
    rcases t with _ | ⟨q, t2⟩
    · have hassoc : dumpEntries [(k, v)] ++ ('\x7d' :: tail) =
          quoteChars k.toList ++ (':' :: ' ' :: (dumpVal v ++ ('\x7d' :: tail))) := by
        simp [dumpEntries, dumpEntry]
      rw [hassoc]
      simp only [parseMembers]
      rw [parseJString_quote k.toList _]
      simp only []
      rw [skipWs_cons_not ':' _ (by decide)]
      simp only [ite_true]
      rw [skipWs_space, skipWs_dumpVal]
      rw [parseJVal_dumpVal v ('\x7d' :: tail) rfl rfl]
      simp only []
      rw [skipWs_cons_not '\x7d' _ (by decide)]
      simp only []
      rw [if_neg (by decide : ¬('\x7d' : Char) = ',')]
      simp only [ite_true]
      rw [mk_toList]
    · have hassoc : dumpEntries ((k, v) :: q :: t2) ++ ('\x7d' :: tail) =
          quoteChars k.toList ++
            (':' :: ' ' :: (dumpVal v ++ (',' :: ' ' ::
              (dumpEntries (q :: t2) ++ ('\x7d' :: tail))))) := by
        simp [dumpEntries, dumpEntry]
      rw [hassoc]
      simp only [parseMembers]
      rw [parseJString_quote k.toList _]
      simp only []
      rw [skipWs_cons_not ':' _ (by decide)]
      simp only [ite_true]
      rw [skipWs_space, skipWs_dumpVal]
      rw [parseJVal_dumpVal v
        (',' :: ' ' :: (dumpEntries (q :: t2) ++ ('\x7d' :: tail))) rfl rfl]
      simp only []
      rw [skipWs_cons_not ',' _ (by decide)]
      simp only [ite_true]
      rw [skipWs_space]
      obtain ⟨X, hX⟩ := dumpEntries_cons_head q t2
      rw [hX, List.cons_append, skipWs_cons_not '"' _ (by decide), ← List.cons_append, ← hX]
      rw [ih f tail (by simp) (by simp at hlen ⊢; omega)]
      simp only []
      rw [mk_toList]

theorem length_le_dumpEntries (m : Msg) : m.length ≤ (dumpEntries m).length + 1 := by
  induction m with
  | nil => simp [dumpEntries]
  | cons p t ih =>
    rcases t with _ | ⟨q, t2⟩
    · simp [dumpEntries, dumpEntry, quoteChars]
    · have h1 : (dumpEntries ((p :: q :: t2 : Msg))).length =
          (dumpEntry p).length + 2 + (dumpEntries (q :: t2)).length := by
        simp [dumpEntries]
        omega
      have h2 : 1 ≤ (dumpEntry p).length := by
        simp [dumpEntry, quoteChars]
      simp only [List.length_cons] at ih ⊢
      omega

theorem loads_dumps (m : Msg) : loads (dumps m) = some (.obj m) := by
  have hd : dumps m = '\x7b' :: (dumpEntries m ++ ['\x7d']) := rfl
  rw [hd]
  unfold loads
  rw [skipWs_cons_not '\x7b' _ (by decide)]
  simp only [parseDoc, ite_true]
  rcases m with _ | ⟨p, t⟩
  · simp [dumpEntries, parseObjBody, skipWs, isWs]
  · have hne : (p :: t : Msg) ≠ [] := by simp
    obtain ⟨X, hX⟩ := dumpEntries_cons_head p t
    unfold parseObjBody
    have hsing : dumpEntries (p :: t) ++ ['\x7d'] = dumpEntries (p :: t) ++ ('\x7d' :: []) := rfl
    rw [hsing, hX, List.cons_append, skipWs_cons_not '"' _ (by decide)]
    simp only []
    rw [if_neg (by decide : ¬('"' : Char) = '\x7d')]
    rw [← List.cons_append, ← hX]
    have hfuel : (p :: t : Msg).length ≤ (X ++ ('\x7d' :: [])).length + 2 := by
      have h1 := length_le_dumpEntries (p :: t)
      rw [hX] at h1
      simp only [List.length_append, List.length_cons] at h1 ⊢
      omega
    have hrw := parseMembers_dumpEntries (p :: t) ((X ++ ('\x7d' :: [])).length + 2) [] hne hfuel
    rw [hrw]
    simp [skipWs]

/-! Framing round trip (claim C4) and oversize rejection (claim C5). -/

/-- C4: for every message that is a mapping of strings/integers whose
encoded size is within the configured maximum, sending it and receiving
from the resulting byte stream yields exactly the same mapping (same key
sequence and values), for EVERY delivery chunking of the stream — one
chunk, one byte at a time, or anything in between. -/
theorem framing_roundtrip (m : Msg) (_hkeys : (m.map Prod.fst).Nodup)
    (hsize : (utf8Encode (dumps m)).length ≤ MAX_MESSAGE_SIZE)
    (s : ByteStream) (hne : ∀ c ∈ s, c ≠ [])
    (hs : s.flatten = (send_message m).2) :
    (send_message m).1 = true ∧ (receive_message s).1 = some (.obj m) := by
  have hmax : MAX_MESSAGE_SIZE = 104857600 := rfl
  have hsend : send_message m =
      (true, lenBytes4 (utf8Encode (dumps m)).length ++ utf8Encode (dumps m)) := by
    unfold send_message
    rw [if_neg (by omega), if_neg (by omega)]
  refine ⟨by rw [hsend], ?_⟩
  have hflat : s.flatten = lenBytes4 (utf8Encode (dumps m)).length ++ utf8Encode (dumps m) := by
    rw [hs, hsend]
  have hflen : s.flatten.length = 4 + (utf8Encode (dumps m)).length := by
    rw [hflat, List.length_append, length_lenBytes4]
  obtain ⟨s1, hr1, hf1, hne1⟩ := recvExactly_spec s 4 hne (by omega)
  have htake : s.flatten.take 4 = lenBytes4 (utf8Encode (dumps m)).length := by
    rw [hflat, ← length_lenBytes4 (utf8Encode (dumps m)).length, List.take_left]
  have hdrop : s.flatten.drop 4 = utf8Encode (dumps m) := by
    rw [hflat, ← length_lenBytes4 (utf8Encode (dumps m)).length, List.drop_left]
  unfold receive_message LENGTH_PREFIX_SIZE
  rw [hr1, htake]
  simp only []
  rw [bytesToLen_lenBytes4 _ (by omega)]
  rw [if_neg (by omega)]
  have hs1len : (utf8Encode (dumps m)).length ≤ s1.flatten.length := by
    rw [hf1, hdrop]
  obtain ⟨s2, hr2, hf2, hne2⟩ := recvExactly_spec s1 (utf8Encode (dumps m)).length hne1 hs1len
  have htake2 : s1.flatten.take (utf8Encode (dumps m)).length = utf8Encode (dumps m) := by
    rw [hf1, hdrop, List.take_length]
  rw [hr2, htake2]
  simp only []
  rw [utf8Decode_encode (dumps m)]
  simp only []
  rw [loads_dumps m]

/-- Witness for `framing_roundtrip`: a concrete command message delivered
one byte at a time. -/
theorem framing_roundtrip_witness :
    (([("type", JVal.jstr "command"), ("command", JVal.jstr "echo hi")].map Prod.fst).Nodup) ∧
    (utf8Encode (dumps [("type", .jstr "command"), ("command", .jstr "echo hi")])).length ≤
      MAX_MESSAGE_SIZE ∧
    (∀ c ∈ (send_message [("type", JVal.jstr "command"),
        ("command", JVal.jstr "echo hi")]).2.map (fun b => [b]), c ≠ []) ∧
    ((send_message [("type", JVal.jstr "command"),
        ("command", JVal.jstr "echo hi")]).2.map (fun b => [b])).flatten =
      (send_message [("type", JVal.jstr "command"), ("command", JVal.jstr "echo hi")]).2 ∧
    (send_message [("type", JVal.jstr "command"), ("command", JVal.jstr "echo hi")]).1 = true ∧
    (receive_message ((send_message [("type", JVal.jstr "command"),
        ("command", JVal.jstr "echo hi")]).2.map (fun b => [b]))).1 =
      some (.obj [("type", .jstr "command"), ("command", .jstr "echo hi")]) :=
  ⟨by decide, by decide, by decide, by decide,
   (framing_roundtrip [("type", .jstr "command"), ("command", .jstr "echo hi")]
      (by decide) (by decide)
      ((send_message [("type", JVal.jstr "command"),
        ("command", JVal.jstr "echo hi")]).2.map (fun b => [b]))
      (by decide) (by decide)).1,
   (framing_roundtrip [("type", .jstr "command"), ("command", .jstr "echo hi")]
      (by decide) (by decide)
      ((send_message [("type", JVal.jstr "command"),
        ("command", JVal.jstr "echo hi")]).2.map (fun b => [b]))
      (by decide) (by decide)).2⟩

/-- C5: oversize rejection on both sides of the codec.  A message whose
encoded payload exceeds `MAX_MESSAGE_SIZE` (and a fortiori one exceeding
the 4-byte length field's range) is rejected by send with no bytes
written; a received frame whose declared length exceeds the maximum is
rejected right after the 4-byte prefix, without reading the body (the
stream is left exactly at the position after the prefix). -/
theorem oversize_rejection :
    (∀ m : Msg, MAX_MESSAGE_SIZE < (utf8Encode (dumps m)).length →
      send_message m = (false, [])) ∧
    (∀ m : Msg, 4294967295 < (utf8Encode (dumps m)).length →
      send_message m = (false, [])) ∧
    (∀ (s s1 : ByteStream) (lb : List Nat),
      recvExactly LENGTH_PREFIX_SIZE s = some (lb, s1) →
      MAX_MESSAGE_SIZE < bytesToLen lb →
      receive_message s = (none, s1)) := by
  refine ⟨?_, ?_, ?_⟩
  · intro m h
    unfold send_message
    rw [if_pos (by omega)]
  · intro m h
    have hmax : MAX_MESSAGE_SIZE = 104857600 := rfl
    unfold send_message
    rw [if_pos (by omega)]
  · intro s s1 lb hr hlen
    unfold receive_message
    rw [hr]
    simp only []
    rw [if_pos (by omega)]

/-- A message whose single value is a string of `n` repeated bytes; used to
realize concrete oversize payloads without materializing them. -/
def bigPayloadMsg (n : Nat) : Msg := [("a", .jstr (String.mk (List.replicate n 'b')))]

theorem escList_replicate_b (n : Nat) :
    (List.replicate n 'b').flatMap escChar = List.replicate n 'b' := by
  induction n with
  | zero => rfl
  | succ k ih =>
    rw [List.replicate_succ, List.flatMap_cons, ih]
    rfl

theorem utf8Encode_replicate_b (n : Nat) :
    utf8Encode (List.replicate n 'b') = List.replicate n 98 := by
  induction n with
  | zero => rfl
  | succ k ih =>
    rw [List.replicate_succ, List.replicate_succ]
    show utf8EncodeChar 'b' ++ utf8Encode (List.replicate k 'b') = 98 :: List.replicate k 98
    rw [ih]
    rfl

theorem dumps_bigPayloadMsg (n : Nat) :
    dumps (bigPayloadMsg n) =
      '\x7b' :: '"' :: 'a' :: '"' :: ':' :: ' ' :: '"' ::
        (List.replicate n 'b' ++ ['"', '\x7d']) := by
  show '\x7b' :: (dumpEntries (bigPayloadMsg n) ++ ['\x7d']) = _
  simp [bigPayloadMsg, dumpEntries, dumpEntry, dumpVal, quoteChars, escList_replicate_b,
    mk_toList]
  rfl

theorem utf8_len_bigPayloadMsg (n : Nat) :
    (utf8Encode (dumps (bigPayloadMsg n))).length = n + 9 := by
  rw [dumps_bigPayloadMsg]
  show (utf8EncodeChar '\x7b' ++ (utf8EncodeChar '"' ++ (utf8EncodeChar 'a' ++
      (utf8EncodeChar '"' ++ (utf8EncodeChar ':' ++ (utf8EncodeChar ' ' ++
      (utf8EncodeChar '"' ++ utf8Encode (List.replicate n 'b' ++ ['"', '\x7d'])))))))).length =
    n + 9
  have happ : utf8Encode (List.replicate n 'b' ++ ['"', '\x7d']) =
      utf8Encode (List.replicate n 'b') ++ utf8Encode ['"', '\x7d'] := by
    simp [utf8Encode]
  rw [happ, utf8Encode_replicate_b]
  simp [utf8EncodeChar, utf8Encode]

/-- Witness for `oversize_rejection`: a payload one byte over the 100 MiB
maximum, a payload beyond the 4-byte range, and a frame declaring length
4294967295. -/
theorem oversize_rejection_witness :
    (MAX_MESSAGE_SIZE < (utf8Encode (dumps (bigPayloadMsg MAX_MESSAGE_SIZE))).length ∧
      send_message (bigPayloadMsg MAX_MESSAGE_SIZE) = (false, [])) ∧
    (4294967295 < (utf8Encode (dumps (bigPayloadMsg 4294967296))).length ∧
      send_message (bigPayloadMsg 4294967296) = (false, [])) ∧
    (recvExactly LENGTH_PREFIX_SIZE [[255, 255, 255, 255], [49]] =
        some ([255, 255, 255, 255], [[49]]) ∧
      MAX_MESSAGE_SIZE < bytesToLen [255, 255, 255, 255] ∧
      receive_message [[255, 255, 255, 255], [49]] = (none, [[49]])) := by
  have h1 : MAX_MESSAGE_SIZE < (utf8Encode (dumps (bigPayloadMsg MAX_MESSAGE_SIZE))).length := by
    rw [utf8_len_bigPayloadMsg]
    omega
  have h2 : 4294967295 < (utf8Encode (dumps (bigPayloadMsg 4294967296))).length := by
    rw [utf8_len_bigPayloadMsg]
    omega
  exact ⟨⟨h1, oversize_rejection.1 _ h1⟩, ⟨h2, oversize_rejection.2.1 _ h2⟩,
    ⟨by decide, by decide,
     oversize_rejection.2.2 [[255, 255, 255, 255], [49]] [[49]] [255, 255, 255, 255]
       (by decide) (by decide)⟩⟩

/-! Helper lemmas about the registry. -/

theorem lookup_eq_none_iff (r : Registry) (k : JVal) :
    r.lookup k = none ↔ ∀ p ∈ r, p.1 ≠ k := by
  induction r with
  | nil => simp
  | cons p t ih =>
    obtain ⟨k1, v1⟩ := p
    by_cases h : k = k1
    · subst h
      simp [List.lookup]
    · simp [List.lookup, beq_false_of_ne h, ih, Ne.symm h]

theorem filter_ne_of_lookup_none (r : Registry) (k : JVal) (h : r.lookup k = none) :
    r.filter (fun p => p.1 ≠ k) = r := by
  rw [List.filter_eq_self]
  intro p hp
  simpa using (lookup_eq_none_iff r k).mp h p hp

theorem lookup_append_of_none (r l : Registry) (k : JVal) (h : r.lookup k = none) :
    (r ++ l).lookup k = l.lookup k := by
  induction r with
  | nil => simp
  | cons p t ih =>
    obtain ⟨k1, v1⟩ := p
    by_cases hk : k = k1
    · subst hk
      simp [List.lookup] at h
    · simp only [List.cons_append, List.lookup, beq_false_of_ne hk] at h ⊢
      exact ih h

/-! Session registry keying (claim C1). -/

def c1SessA : ClientSession := ⟨"SESSION-20251024140933-a7f3", .jstr "LAPTOP-ABC", true⟩

def c1SessB : ClientSession := ⟨"SESSION-20251024141005-09c2", .jstr "LAPTOP-ABC", true⟩

/-- C1 counterexample: the registry is keyed by the client-asserted
`client_id`, not the server-generated `session_id`.  Inserting a session
whose `session_id` differs from its `client_id` produces an entry whose key
is not the value's `session_id`, and a second insert with the same
`client_id` (and a fresh `session_id`) is rejected, so insert does not
always succeed. -/
theorem registry_not_keyed_by_session_id :
    (add_session [] c1SessA).1 = true ∧
    ¬(∀ p ∈ (add_session [] c1SessA).2, p.1 = .jstr p.2.session_id) ∧
    (add_session (add_session [] c1SessA).2 c1SessB).1 = false := by
  refine ⟨by decide, ?_, by decide⟩
  intro h
  have := h (.jstr "LAPTOP-ABC", c1SessA) (by decide)
  exact absurd this (by decide)

/-- C1 amended: the Session Registry is keyed by the client-asserted
`client_id`: every entry's key equals its value's `client_id`, this
invariant is preserved by insert and remove, and insert is rejected exactly
when the `client_id` is already a key of the registry. -/
theorem registry_keyed_by_client_id (r : Registry) (s : ClientSession)
    (hr : ∀ p ∈ r, p.1 = p.2.client_id) :
    (∀ p ∈ (add_session r s).2, p.1 = p.2.client_id) ∧
    ((add_session r s).1 = false ↔ (r.lookup s.client_id).isSome) ∧
    (∀ cid, ∀ p ∈ (remove_session r cid).2, p.1 = p.2.client_id) := by
  refine ⟨?_, ?_, ?_⟩
  · intro p hp
    unfold add_session at hp
    by_cases h : (r.lookup s.client_id).isSome
    · rw [if_pos h] at hp
      exact hr p hp
    · rw [if_neg h] at hp
      simp only [List.mem_append, List.mem_singleton] at hp
      rcases hp with hp | hp
      · exact hr p hp
      · subst hp
        rfl
  · unfold add_session
    by_cases h : (r.lookup s.client_id).isSome
    · simp [h]
    · simp [h]
  · intro cid p hp
    unfold remove_session at hp
    rcases hl : r.lookup cid with _ | v
    · rw [hl] at hp
      exact hr p hp
    · rw [hl] at hp
      simp only [List.mem_filter] at hp
      exact hr p hp.1

/-- Witness for `registry_keyed_by_client_id` at a concrete registry. -/
theorem registry_keyed_by_client_id_witness :
    (∀ p ∈ (add_session [(.jstr "LAPTOP-ABC", c1SessA)] c1SessB).2, p.1 = p.2.client_id) ∧
    ((add_session [(.jstr "LAPTOP-ABC", c1SessA)] c1SessB).1 = false ↔
      (([(.jstr "LAPTOP-ABC", c1SessA)] : Registry).lookup c1SessB.client_id).isSome) ∧
    (∀ cid, ∀ p ∈ (remove_session [(.jstr "LAPTOP-ABC", c1SessA)] cid).2,
      p.1 = p.2.client_id) :=
  registry_keyed_by_client_id [(.jstr "LAPTOP-ABC", c1SessA)] c1SessB (by decide)

/-! Duplicate registration must not disturb the original session (claim C2). -/

def c2Orig : ClientSession := ⟨"SESSION-20251101090000-aaaa", .jstr "HOST-AB12", true⟩

def c2DupReg : JDoc := .obj [("type", .jstr "registration"), ("client_id", .jstr "HOST-AB12")]

/-- C2: when a second handler registers the already-present `client_id`
"HOST-AB12" and `add_session` rejects the insert, the rejecting handler's
`finally` block still calls `remove_session(session.client_id)`, which pops
the ORIGINAL agent's live session from the registry: after the duplicate
handler exits, the registry is empty and the original session is gone. -/
theorem duplicate_rejection_removes_original :
    (client_handler [(.jstr "HOST-AB12", c2Orig)] "SESSION-20251101090155-bbbb"
        (some c2DupReg) []).finalReg = [] ∧
    get_session (client_handler [(.jstr "HOST-AB12", c2Orig)] "SESSION-20251101090155-bbbb"
        (some c2DupReg) []).finalReg (.jstr "HOST-AB12") = none := by
  decide

/-! Non-mapping payloads are accepted by receive (claim C6). -/

/-- C6: the payload bytes `[49]` (the single character "1") decode as valid
UTF-8 and valid JSON, but not into a mapping — yet `receive_message`
returns it as a success (`json.loads` result is returned without checking
it is a dict), contradicting the claim and the function's own declared
return type. -/
theorem receive_accepts_non_mapping :
    (receive_message [[0, 0, 0, 1], [49]]).1 = some (.int 1) ∧
    loads [Char.ofNat 49] = some (.int 1) := by
  decide

/-! Capacity backpressure in the accept loop (claim C8). -/

/-- C8: whenever the live-session count is at or above `MAX_CLIENTS`, an
iteration of the listener loop sleeps without calling accept; any iteration
that is not the at-capacity sleep has a count strictly below the maximum;
and over a whole schedule at capacity the loop only sleeps, never accepts. -/
theorem listener_capacity_backpressure :
    (∀ count inbound, MAX_CLIENTS ≤ count →
      listener_iteration count inbound = .atCapacitySleep) ∧
    (∀ count inbound, listener_iteration count inbound ≠ .atCapacitySleep →
      count < MAX_CLIENTS) ∧
    (∀ r inbound, MAX_CLIENTS ≤ get_session_count r →
      listener_iteration (get_session_count r) inbound = .atCapacitySleep) ∧
    (∀ sched, (∀ it ∈ sched, MAX_CLIENTS ≤ it.1) →
      ∀ a ∈ listener_run sched, a = .atCapacitySleep) := by
  refine ⟨?_, ?_, ?_, ?_⟩
  · intro count inbound h
    simp [listener_iteration, h]
  · intro count inbound h
    by_contra hc
    exact h (by simp [listener_iteration, Nat.le_of_not_lt hc])
  · intro r inbound h
    simp [listener_iteration, h]
  · intro sched hs a ha
    simp only [listener_run, List.mem_map] at ha
    obtain ⟨it, hit, rfl⟩ := ha
    simp [listener_iteration, hs it hit]

/-- Witness for `listener_capacity_backpressure` at concrete counts. -/
theorem listener_capacity_backpressure_witness :
    listener_iteration 50 (some true) = .atCapacitySleep ∧
    (listener_iteration 49 (some true) ≠ .atCapacitySleep → 49 < MAX_CLIENTS) ∧
    listener_iteration (get_session_count [(.jstr "LAPTOP-ABC", c1SessA)]) none ≠
        .atCapacitySleep ∧
    (∀ a ∈ listener_run [(50, none), (51, some true)], a = .atCapacitySleep) :=
  ⟨listener_capacity_backpressure.1 50 (some true) (by decide),
   listener_capacity_backpressure.2.1 49 (some true),
   by decide,
   listener_capacity_backpressure.2.2.2 [(50, none), (51, some true)] (by decide)⟩

/-! Handler lifecycle and registry snapshots (claim C3). -/

def c3Orig : ClientSession := ⟨"SESSION-20251102110000-cccc", .jstr "WS-77", true⟩

def c3Reg : JDoc := .obj [("type", .jstr "registration"), ("client_id", .jstr "WS-77")]

/-- C3 counterexample: with the original "WS-77" session already registered,
a second handler's registration succeeds (valid registration message,
non-empty `client_id`), yet its session (session_id
SESSION-20251102110230-dddd) never appears in any registry snapshot,
because the insert is rejected — refuting "if registration succeeds, the
session appears in the registry exactly once until termination". -/
theorem handler_lifecycle_claim_false :
    handle_registration (some c3Reg) = some (.jstr "WS-77") ∧
    (∀ st ∈ (client_handler [(.jstr "WS-77", c3Orig)] "SESSION-20251102110230-dddd"
        (some c3Reg) []).regStates,
      ∀ p ∈ st, p.2.session_id ≠ "SESSION-20251102110230-dddd") := by
  decide

/-- C3 amended: a handler whose registration fails (receive failure, wrong
type, or a missing or falsy `client_id` — the source's `if not client_id`
truthiness check) creates no session, publishes no registry snapshot,
leaves the registry untouched, and still runs its cleanup exactly once,
closing the connection.  A handler whose registration succeeds (any truthy
`client_id`, string or integer) AND whose registry insert is accepted
appears in the registry exactly once until termination, and on exit its
cleanup runs exactly once: the session is removed, the registry returns to
its prior state, the connection is closed, and the session appears in no
later snapshot. -/
theorem handler_lifecycle (r0 : Registry) (sid : String) (regDoc : Option JDoc)
    (steps : List LoopStep) :
    (handle_registration regDoc = none →
      (client_handler r0 sid regDoc steps).finalReg = r0 ∧
      (client_handler r0 sid regDoc steps).regStates = [] ∧
      (client_handler r0 sid regDoc steps).cleanupRan = 1 ∧
      (client_handler r0 sid regDoc steps).closedSocket = true) ∧
    (∀ cid, handle_registration regDoc = some cid → r0.lookup cid = none →
      (client_handler r0 sid regDoc steps).regStates =
        [r0 ++ [(cid, ⟨sid, cid, true⟩)], r0] ∧
      (r0 ++ [(cid, (⟨sid, cid, true⟩ : ClientSession))]).lookup cid =
        some ⟨sid, cid, true⟩ ∧
      (r0 ++ [(cid, (⟨sid, cid, true⟩ : ClientSession))]).countP (fun p => p.1 == cid) = 1 ∧
      (client_handler r0 sid regDoc steps).finalReg = r0 ∧
      (client_handler r0 sid regDoc steps).finalReg.lookup cid = none ∧
      (client_handler r0 sid regDoc steps).cleanupRan = 1 ∧
      (client_handler r0 sid regDoc steps).closedSocket = true) := by
  constructor
  · intro hreg
    simp [client_handler, hreg]
  · intro cid hreg hnone
    have hadd : add_session r0 ⟨sid, cid, true⟩ = (true, r0 ++ [(cid, ⟨sid, cid, true⟩)]) := by
      simp [add_session, hnone]
    have hlook : (r0 ++ [(cid, (⟨sid, cid, true⟩ : ClientSession))]).lookup cid =
        some ⟨sid, cid, true⟩ := by
      rw [lookup_append_of_none r0 _ cid hnone]
      simp [List.lookup]
    have hrem : remove_session (r0 ++ [(cid, ⟨sid, cid, true⟩)]) cid =
        (some ⟨sid, cid, true⟩, r0) := by
      unfold remove_session
      rw [hlook]
      rw [List.filter_append, filter_ne_of_lookup_none r0 cid hnone]
      simp
    have hrun : client_handler r0 sid regDoc steps =
        ⟨r0, [r0 ++ [(cid, ⟨sid, cid, true⟩)], r0], handlerLoop steps, 1, true⟩ := by
      unfold client_handler
      rw [hreg]
      simp only [hadd, if_pos]
      rw [hrem]
    have hcount : (r0 ++ [(cid, (⟨sid, cid, true⟩ : ClientSession))]).countP
        (fun p => p.1 == cid) = 1 := by
      rw [List.countP_append]
      have h0 : r0.countP (fun p => p.1 == cid) = 0 := by
        rw [List.countP_eq_zero]
        intro p hp
        have := (lookup_eq_none_iff r0 cid).mp hnone p hp
        simpa using this
      simp [h0, List.countP_cons]
    rw [hrun]
    exact ⟨rfl, hlook, hcount, rfl, hnone, rfl, rfl⟩

/-- Witness for `handler_lifecycle`: a failed registration (wrong type), a
successful string registration into the empty registry, and a successful
truthy-integer registration (`client_id = 5`), which the source's
truthiness check accepts. -/
theorem handler_lifecycle_witness :
    ((client_handler [(.jstr "WS-77", c3Orig)] "SESSION-X"
        (some (.obj [("type", .jstr "result")])) []).finalReg = [(.jstr "WS-77", c3Orig)] ∧
      (client_handler [(.jstr "WS-77", c3Orig)] "SESSION-X"
        (some (.obj [("type", .jstr "result")])) []).regStates = [] ∧
      (client_handler [(.jstr "WS-77", c3Orig)] "SESSION-X"
        (some (.obj [("type", .jstr "result")])) []).cleanupRan = 1 ∧
      (client_handler [(.jstr "WS-77", c3Orig)] "SESSION-X"
        (some (.obj [("type", .jstr "result")])) []).closedSocket = true) ∧
    ((client_handler [] "SESSION-Y" (some c3Reg) []).regStates =
        [[(.jstr "WS-77", ⟨"SESSION-Y", .jstr "WS-77", true⟩)], []] ∧
      (client_handler [] "SESSION-Y" (some c3Reg) []).finalReg = [] ∧
      (client_handler [] "SESSION-Y" (some c3Reg) []).cleanupRan = 1) ∧
    ((client_handler [] "SESSION-Z"
        (some (.obj [("type", .jstr "registration"), ("client_id", .jint 5)])) []).regStates =
      [[(.jint 5, ⟨"SESSION-Z", .jint 5, true⟩)], []]) :=
  ⟨(handler_lifecycle [(.jstr "WS-77", c3Orig)] "SESSION-X"
      (some (.obj [("type", .jstr "result")])) []).1 (by decide),
   ⟨by simpa using ((handler_lifecycle [] "SESSION-Y" (some c3Reg) []).2 (.jstr "WS-77")
       (by decide) (by decide)).1,
    by simpa using ((handler_lifecycle [] "SESSION-Y" (some c3Reg) []).2 (.jstr "WS-77")
       (by decide) (by decide)).2.2.2.1,
    ((handler_lifecycle [] "SESSION-Y" (some c3Reg) []).2 (.jstr "WS-77")
       (by decide) (by decide)).2.2.2.2.2.1⟩,
   by simpa using ((handler_lifecycle [] "SESSION-Z"
      (some (.obj [("type", .jstr "registration"), ("client_id", .jint 5)])) []).2 (.jint 5)
      (by decide) (by decide)).1⟩

/-! Client connection retry/backoff (claim C9). -/

/-- The exponentially doubling delay schedule: `b` sleeps starting at `d`. -/
def expDelays : Nat → Nat → List Nat
  | 0, _ => []
  | b + 1, d => d :: expDelays b (d * 2)

theorem connectGo_transient (oracle : Nat → ConnOutcome) :
    ∀ b i d, (∀ k ≤ b, oracle (i + k) = .refused ∨ oracle (i + k) = .osErr) →
      connectGo oracle i b d = (none, expDelays b d) := by
  intro b
  induction b with
  | zero =>
    intro i d h
    rcases h 0 (by omega) with h0 | h0 <;> simp_all [connectGo, expDelays]
  | succ b ih =>
    intro i d h
    have hrest : ∀ k ≤ b, oracle (i + 1 + k) = .refused ∨ oracle (i + 1 + k) = .osErr := by
      intro k hk
      have := h (k + 1) (by omega)
      rwa [show i + (k + 1) = i + 1 + k by omega] at this
    have hrec := ih (i + 1) (d * 2) hrest
    rcases h 0 (by omega) with h0 | h0 <;>
      simp_all [connectGo, expDelays]

/-- C9: connection establishment.  A hostname-resolution failure or a TLS
handshake failure on the first attempt returns failure immediately, with no
retry and no sleep.  When every attempt fails with a refused connection or
a generic I/O error, the client performs the initial attempt plus
`MAX_CONNECTION_RETRIES = 3` retries, sleeping the exponentially doubling
delays 2s, 4s, 8s between attempts, and then returns failure. -/
theorem connect_retry_policy (oracle : Nat → ConnOutcome) :
    (oracle 0 = .gaiErr → connect_to_server oracle = (none, [])) ∧
    (oracle 0 = .sslErr → connect_to_server oracle = (none, [])) ∧
    ((∀ k ≤ MAX_CONNECTION_RETRIES, oracle k = .refused ∨ oracle k = .osErr) →
      connect_to_server oracle = (none, [2, 4, 8])) := by
  refine ⟨?_, ?_, ?_⟩
  · intro h
    simp [connect_to_server, MAX_CONNECTION_RETRIES, CONNECTION_RETRY_DELAY, connectGo, h]
  · intro h
    simp [connect_to_server, MAX_CONNECTION_RETRIES, CONNECTION_RETRY_DELAY, connectGo, h]
  · intro h
    have := connectGo_transient oracle MAX_CONNECTION_RETRIES 0 CONNECTION_RETRY_DELAY
      (by intro k hk; simpa using h k hk)
    simpa [connect_to_server, expDelays, CONNECTION_RETRY_DELAY, MAX_CONNECTION_RETRIES]
      using this

/-- Witness for `connect_retry_policy` at concrete outcome schedules. -/
theorem connect_retry_policy_witness :
    connect_to_server (fun _ => .gaiErr) = (none, []) ∧
    connect_to_server (fun _ => .sslErr) = (none, []) ∧
    connect_to_server (fun _ => .refused) = (none, [2, 4, 8]) :=
  ⟨(connect_retry_policy (fun _ => .gaiErr)).1 rfl,
   (connect_retry_policy (fun _ => .sslErr)).2.1 rfl,
   (connect_retry_policy (fun _ => .refused)).2.2 (fun _ _ => Or.inl rfl)⟩

/-! Client command-loop skipping behaviour (claim C10). -/

/-- A schedule whose successfully received messages are all mappings. -/
def allMaps (steps : List (Option JDoc × Bool)) : Bool :=
  steps.all (fun p =>
    match p.1 with
    | some (.obj _) => true
    | some _ => false
    | none => true)

/-- C10: in the client's command loop, a received mapping whose `type` is
not "command" is skipped with a warning and the loop continues with the
remaining schedule; a command message whose `command` field is missing or
empty (falsy) is likewise skipped; nothing is executed and no result is
sent for the skipped message.  Under a schedule whose received messages are
all mappings, the loop never exits through the exception path, so only a
receive failure or a failed result send ends it. -/
theorem client_loop_skips_invalid (m : Msg) (sendOk : Bool)
    (rest : List (Option JDoc × Bool)) (steps : List (Option JDoc × Bool))
    (htype : m.lookup "type" ≠ some (.jstr "command"))
    (hmaps : allMaps steps = true) :
    main_loop ((some (.obj m), sendOk) :: rest) = .warnedType :: main_loop rest ∧
    (∀ m2 : Msg, m2.lookup "type" = some (.jstr "command") →
      jfalsy (m2.lookup "command") = true →
      main_loop ((some (.obj m2), sendOk) :: rest) = .warnedEmpty :: main_loop rest) ∧
    CEvent.exitExc ∉ main_loop steps := by
  refine ⟨?_, ?_, ?_⟩
  · simp [main_loop, htype]
  · intro m2 ht hf
    rcases hc : m2.lookup "command" with _ | v
    · simp [main_loop, ht, hc]
    · rw [hc] at hf
      simp [main_loop, ht, hc, hf]
  · clear htype
    induction steps with
    | nil => simp [main_loop]
    | cons p t ih =>
      obtain ⟨od, b⟩ := p
      simp only [allMaps, List.all_cons, Bool.and_eq_true] at hmaps
      have hrest : allMaps t = true := hmaps.2
      rcases od with _ | d
      · simp [main_loop]
      · rcases d with mm | s | n
        · by_cases ht : mm.lookup "type" = some (.jstr "command")
          · by_cases hf : jfalsy (mm.lookup "command") = true
            · simpa [main_loop, ht, hf] using ih hrest
            · rcases hc : mm.lookup "command" with _ | v
              · simp [jfalsy, hc] at hf
              · rw [hc] at hf
                cases b
                · simp [main_loop, ht, hc, hf]
                · simpa [main_loop, ht, hc, hf] using ih hrest
          · simpa [main_loop, ht] using ih hrest
        · simp [allMaps] at hmaps
        · simp [allMaps] at hmaps

/-- Witness for `client_loop_skips_invalid` at a concrete schedule. -/
theorem client_loop_skips_invalid_witness :
    main_loop [(some (.obj [("type", .jstr "status")]), true), (none, true)] =
        .warnedType :: main_loop [(none, true)] ∧
    (∀ m2 : Msg, m2.lookup "type" = some (.jstr "command") →
      jfalsy (m2.lookup "command") = true →
      main_loop ((some (.obj m2), true) :: [(none, true)]) =
        .warnedEmpty :: main_loop [(none, true)]) ∧
    CEvent.exitExc ∉ main_loop [(some (.obj [("type", .jstr "status")]), true), (none, true)] :=
  client_loop_skips_invalid [("type", .jstr "status")] true [(none, true)]
    [(some (.obj [("type", .jstr "status")]), true), (none, true)]
    (by decide) (by decide)

/-! Strict one-in-flight command/result pairing (claim C7). -/

/-- Every `sent` event is immediately followed by its paired `received`
event or by the fatal receive failure: no second send is issued before the
first command's outcome is observed. -/
def sentFollowed : List LEvent → Bool
  | [] => true
  | .sent _ :: .received _ :: rest => sentFollowed rest
  | .sent _ :: .recvFailed :: rest => sentFollowed rest
  | .sent _ :: _ => false
  | _ :: rest => sentFollowed rest

def isResultDoc : JDoc → Bool
  | .obj m => m.lookup "type" = some (.jstr "result")
  | _ => false

/-- C7: the handler's command loop is strictly one-in-flight: in every
trace, each command send is immediately followed by the paired reply or by
the fatal receive failure, and queuing three commands against a client
that answers each with a result message yields exactly the alternating
trace sent c1, result r1, sent c2, result r2, sent c3, result r3 — no
pipelining, no reordering. -/
theorem command_result_one_in_flight :
    (∀ steps, sentFollowed (handlerLoop steps) = true) ∧
    (∀ (c1 c2 c3 : String) (r1 r2 r3 : JDoc),
      isResultDoc r1 = true → isResultDoc r2 = true → isResultDoc r3 = true →
      handlerLoop [.cmd c1 true (some r1), .cmd c2 true (some r2), .cmd c3 true (some r3)] =
        [.sent c1, .received r1, .sent c2, .received r2, .sent c3, .received r3]) := by
  constructor
  · intro steps
    induction steps with
    | nil => rfl
    | cons step rest ih =>
      cases step with
      | timeout => simpa [handlerLoop] using ih
      | cmd c sendOk resp =>
        cases sendOk
        · simp [handlerLoop, sentFollowed]
        · rcases resp with _ | d
          · simp [handlerLoop, sentFollowed]
          · cases d with
            | obj m => simpa [handlerLoop, sentFollowed] using ih
            | str s => simp [handlerLoop, sentFollowed]
            | int n => simp [handlerLoop, sentFollowed]
  · intro c1 c2 c3 r1 r2 r3 h1 h2 h3
    cases r1 with
    | obj m1 =>
      cases r2 with
      | obj m2 =>
        cases r3 with
        | obj m3 => simp [handlerLoop]
        | str s => simp [isResultDoc] at h3
        | int n => simp [isResultDoc] at h3
      | str s => simp [isResultDoc] at h2
      | int n => simp [isResultDoc] at h2
    | str s => simp [isResultDoc] at h1
    | int n => simp [isResultDoc] at h1

/-- Witness for `command_result_one_in_flight` at a concrete queue. -/
theorem command_result_one_in_flight_witness :
    sentFollowed (handlerLoop [.cmd "whoami" true (some (.obj [("type", .jstr "result")]))]) =
        true ∧
    handlerLoop
        [.cmd "c1" true (some (.obj [("type", .jstr "result"), ("stdout", .jstr "a")])),
         .cmd "c2" true (some (.obj [("type", .jstr "result"), ("stdout", .jstr "b")])),
         .cmd "c3" true (some (.obj [("type", .jstr "result"), ("stdout", .jstr "c")]))] =
      [.sent "c1", .received (.obj [("type", .jstr "result"), ("stdout", .jstr "a")]),
       .sent "c2", .received (.obj [("type", .jstr "result"), ("stdout", .jstr "b")]),
       .sent "c3", .received (.obj [("type", .jstr "result"), ("stdout", .jstr "c")])] :=
  ⟨command_result_one_in_flight.1 [.cmd "whoami" true (some (.obj [("type", .jstr "result")]))],
   command_result_one_in_flight.2 "c1" "c2" "c3" _ _ _ (by decide) (by decide) (by decide)⟩

end C2
